import Mathlib

/-!
Verification of the tool-call orchestration core of the ai_agent_typescript
repository against its design specification.

The TypeScript source is shallowly embedded:
tasks, content blocks and conversation turns become inductive data,
the registry dispatch, the orchestration loop body, the todo auto-progression
and the sequence-execution loop become executable Lean functions mirroring
the source line by line.  External effects (the completion endpoint, the
filesystem, the heap backing JavaScript arrays) are passed in explicitly.
-/

set_option maxHeartbeats 1000000

/-- Task status, the TypeScript union "pending" | "in_progress" | "completed"
    (src/agent.ts, TodoWriteInput). -/
inductive Status where
  | pending
  | in_progress
  | completed
  deriving DecidableEq, Repr

/-- Task priority, the TypeScript union "high" | "medium" | "low". -/
inductive Priority where
  | high
  | medium
  | low
  deriving DecidableEq, Repr

/-- One task item of TodoWriteInput.todos (src/agent.ts). -/
structure Todo where
  content : String
  status : Status
  priority : Priority
  id : String
  deriving DecidableEq, Repr

/-- The payload of a tool call.  In TypeScript the input is untyped; the
    orchestrator reads input.todos (todo_write) and input.confirm
    (execute_sequence), while other tools consume an opaque payload,
    modelled here by the raw field. -/
structure ToolInput where
  todos : List Todo
  confirm : Option Bool
  raw : String
  deriving DecidableEq, Repr

/-- ToolCall of src/tools.ts: name plus input (the correlation id of the
    originating tool_use block is NOT retained, exactly as in
    Agent.parseToolCalls). -/
structure ToolCall where
  name : String
  input : ToolInput
  deriving DecidableEq, Repr

/-- Tool of src/tools.ts.  A tool execution either returns a text result or
    fails with a message (a thrown Error whose message is the payload). -/
structure Tool where
  name : String
  description : String
  execute : ToolInput → Except String String

/-- ToolRegistry of src/tools.ts: a name-to-tool map, modelled as an
    association list in insertion order (JavaScript Map semantics). -/
structure ToolRegistry where
  tools : List (String × Tool)

/-- ToolRegistry.get: lookup by name. -/
def ToolRegistry.get (reg : ToolRegistry) (name : String) : Option Tool :=
  (reg.tools.find? (fun p => decide (p.1 = name))).map Prod.snd

/-- ToolRegistry.register: insert, overwriting on name collision while
    keeping the original insertion position (JavaScript Map.set). -/
def ToolRegistry.register (reg : ToolRegistry) (tool : Tool) : ToolRegistry :=
  if reg.tools.any (fun p => decide (p.1 = tool.name)) then
    ⟨reg.tools.map (fun p => if p.1 = tool.name then (p.1, tool) else p)⟩
  else
    ⟨reg.tools ++ [(tool.name, tool)]⟩

/-- ToolRegistry.getAll. -/
def ToolRegistry.getAll (reg : ToolRegistry) : List Tool :=
  reg.tools.map Prod.snd

/-- ToolRegistry.execute (src/tools.ts lines 41-52): an absent name throws
    the ToolNotFound error (Except.error); a registered tool is invoked
    and any failure it raises is caught and converted into an ordinary
    string result (Except.ok). -/
def ToolRegistry.execute (reg : ToolRegistry) (toolCall : ToolCall) : Except String String :=
  match reg.get toolCall.name with
  | none => Except.error ("Tool '" ++ toolCall.name ++ "' not found")
  | some tool =>
    match tool.execute toolCall.input with
    | Except.ok result => Except.ok result
    | Except.error msg =>
      Except.ok ("Error executing tool '" ++ toolCall.name ++ "': " ++ msg)

/-- The registry with no tools, used as a concrete witness input. -/
def emptyRegistry : ToolRegistry := ⟨[]⟩

/-- A tool that always fails, used as a concrete witness input. -/
def alwaysFailingTool : Tool :=
  { name := "boom"
    description := "always fails"
    execute := fun _ => Except.error ("kaput") }

/-- A registry holding only alwaysFailingTool. -/
def failingRegistry : ToolRegistry := ToolRegistry.register emptyRegistry alwaysFailingTool

/-- Claim C4: dispatching a name absent from the registry throws a
    ToolNotFound error with message Tool '<name>' not found, propagated to
    the caller and never converted into a contained string result. -/
theorem registry_execute_toolNotFound (reg : ToolRegistry) (toolCall : ToolCall)
    (h : reg.get toolCall.name = none) :
    reg.execute toolCall = Except.error ("Tool '" ++ toolCall.name ++ "' not found") := by
  unfold ToolRegistry.execute
  rw [h]

/-- Witness for C4: the empty registry rejects a read_file call with the
    propagated ToolNotFound error. -/
theorem registry_execute_toolNotFound_witness :
    ToolRegistry.execute emptyRegistry ⟨"read_file", ⟨[], none, ""⟩⟩ =
      Except.error ("Tool 'read_file' not found") :=
  registry_execute_toolNotFound emptyRegistry ⟨"read_file", ⟨[], none, ""⟩⟩ (by rfl)

/-- Claim C5: when a registered tool fails, ToolRegistry.execute never
    propagates the failure; it returns, as an ordinary result, the string
    Error executing tool '<name>': followed by the failure message. -/
theorem registry_execute_contains_failure (reg : ToolRegistry) (toolCall : ToolCall)
    (tool : Tool) (msg : String)
    (hget : reg.get toolCall.name = some tool)
    (hfail : tool.execute toolCall.input = Except.error msg) :
    reg.execute toolCall =
      Except.ok ("Error executing tool '" ++ toolCall.name ++ "': " ++ msg) := by
  unfold ToolRegistry.execute
  rw [hget]
  dsimp only
  rw [hfail]

/-- Witness for C5: dispatching the always-failing tool yields the contained
    error string, not a throw. -/
theorem registry_execute_contains_failure_witness :
    ToolRegistry.execute failingRegistry ⟨"boom", ⟨[], none, ""⟩⟩ =
      Except.ok ("Error executing tool 'boom': kaput") :=
  registry_execute_contains_failure failingRegistry ⟨"boom", ⟨[], none, ""⟩⟩
    alwaysFailingTool ("kaput") (by rfl) (by rfl)

/-- Agent.getNextPendingTodo (src/agent.ts): first pending item in list order. -/
def getNextPendingTodo (todos : List Todo) : Option Todo :=
  todos.find? (fun todo => decide (todo.status = Status.pending))

/-- Agent.getCurrentInProgressTodo (src/agent.ts): first in-progress item. -/
def getCurrentInProgressTodo (todos : List Todo) : Option Todo :=
  todos.find? (fun todo => decide (todo.status = Status.in_progress))

/-- The focused directive synthesized by Agent.autoProgressToNextTodo for the
    selected item. -/
def todoDirective (todo : Todo) : String :=
  "Please work on this specific todo item: \"" ++ todo.content ++
    "\". Focus only on completing this task. When done, mark it as completed and move to the next pending item."

/-- The updatedTodos map of Agent.autoProgressToNextTodo: every item whose id
    equals the target id has its status set to in_progress, all others are
    returned unchanged. -/
def startTodoById (targetId : String) (todos : List Todo) : List Todo :=
  todos.map (fun todo =>
    if todo.id = targetId then { todo with status := Status.in_progress } else todo)

/-- Agent.autoProgressToNextTodo (src/agent.ts lines 293-316): when no item is
    in progress and a pending item exists, start the first pending item and
    return the synthesized directive; otherwise change nothing and return no
    prompt.  The returned pair is (prompt, updated task list). -/
def autoProgressToNextTodo (todos : List Todo) : Option String × List Todo :=
  match getCurrentInProgressTodo todos, getNextPendingTodo todos with
  | none, some nextPending =>
    (some (todoDirective nextPending), startTodoById nextPending.id todos)
  | _, _ => (none, todos)

/-- Count of items with a given status (the filter(...).length idiom of
    src/agent.ts). -/
def countStatus (s : Status) (todos : List Todo) : Nat :=
  (todos.filter (fun todo => decide (todo.status = s))).length

/-- List.find? returns some a exactly when the list splits as l1 ++ a :: l2
    with the predicate false on all of l1: forward direction. -/
theorem find?_eq_some_split {α : Type} {p : α → Bool} {l : List α} {a : α}
    (h : l.find? p = some a) :
    ∃ l₁ l₂, l = l₁ ++ a :: l₂ ∧ p a = true ∧ ∀ x ∈ l₁, p x = false := by
  induction l with
  | nil => simp [List.find?] at h
  | cons b bs ih =>
    by_cases hb : p b
    · rw [List.find?_cons_of_pos bs hb] at h
      obtain rfl : b = a := by simpa using h
      exact ⟨[], bs, rfl, hb, by simp⟩
    · rw [List.find?_cons_of_neg bs hb] at h
      obtain ⟨l₁, l₂, rfl, hpa, hl₁⟩ := ih h
      refine ⟨b :: l₁, l₂, rfl, hpa, ?_⟩
      intro x hx
      rcases List.mem_cons.mp hx with rfl | hx
      · exact Bool.eq_false_iff.mpr hb
      · exact hl₁ x hx

/-- List.find? returns some a exactly when the list splits as l1 ++ a :: l2
    with the predicate false on all of l1: converse direction. -/
theorem find?_append_cons {α : Type} {p : α → Bool} (l₁ l₂ : List α) (a : α)
    (hl₁ : ∀ x ∈ l₁, p x = false) (ha : p a = true) :
    (l₁ ++ a :: l₂).find? p = some a := by
  induction l₁ with
  | nil => simpa using List.find?_cons_of_pos l₂ ha
  | cons b bs ih =>
    have hb : p b = false := hl₁ b (by simp)
    rw [List.cons_append, List.find?_cons_of_neg _ (by simp [hb])]
    exact ih (fun x hx => hl₁ x (by simp [hx]))

/-- Claim C3: auto-progression changes nothing while an item is in progress
    or when no item is pending; when it fires, it selects exactly the first
    pending item in list order (all items before it are non-pending) and the
    updated list differs from the old one only by that item's status becoming
    in_progress.  Task lists carry the data-model invariant that item ids are
    unique. -/
theorem autoProgressToNextTodo_spec (todos : List Todo)
    (hids : (todos.map Todo.id).Nodup) :
    ((∃ t, getCurrentInProgressTodo todos = some t) →
        autoProgressToNextTodo todos = (none, todos))
    ∧ (getNextPendingTodo todos = none → autoProgressToNextTodo todos = (none, todos))
    ∧ (∀ nextPending before after,
        getCurrentInProgressTodo todos = none →
        todos = before ++ nextPending :: after →
        (∀ x ∈ before, x.status ≠ Status.pending) →
        nextPending.status = Status.pending →
        autoProgressToNextTodo todos =
          (some (todoDirective nextPending),
            before ++ { nextPending with status := Status.in_progress } :: after)) := by
  refine ⟨?_, ?_, ?_⟩
  · rintro ⟨t, ht⟩
    cases hfind : getNextPendingTodo todos <;>
      simp [autoProgressToNextTodo, ht, hfind]
  · intro hnp
    cases hip : getCurrentInProgressTodo todos <;>
      simp [autoProgressToNextTodo, hip, hnp]
  · intro nextPending before after hip hsplit hbefore hpend
    have hfind : getNextPendingTodo todos = some nextPending := by
      rw [hsplit]
      exact find?_append_cons before after nextPending
        (fun x hx => by simpa using hbefore x hx) (by simpa using hpend)
    have hmap : startTodoById nextPending.id todos =
        before ++ { nextPending with status := Status.in_progress } :: after := by
      subst hsplit
      rw [List.map_append, List.map_cons] at hids
      have hmid := List.nodup_middle.mp hids
      have hnotmem : nextPending.id ∉ before.map Todo.id ++ after.map Todo.id :=
        (List.nodup_cons.mp hmid).1
      have hnotb : ∀ x ∈ before, x.id ≠ nextPending.id := by
        intro x hx hxe
        exact hnotmem (List.mem_append_left _ (hxe ▸ List.mem_map_of_mem Todo.id hx))
      have hnota : ∀ x ∈ after, x.id ≠ nextPending.id := by
        intro x hx hxe
        exact hnotmem (List.mem_append_right _ (hxe ▸ List.mem_map_of_mem Todo.id hx))
      unfold startTodoById
      rw [List.map_append, List.map_cons]
      congr 1
      · rw [List.map_congr_left (fun x hx => if_neg (hnotb x hx))]
        exact List.map_id _
      · congr 1
        exact if_pos rfl
        rw [List.map_congr_left (fun x hx => if_neg (hnota x hx))]
        exact List.map_id _
    rw [autoProgressToNextTodo, hip, hfind]
    dsimp only
    rw [hmap]

/-- Concrete task list for witnesses: one completed item then two pending. -/
def wDone : Todo := ⟨"setup", Status.completed, Priority.high, "0"⟩

/-- Concrete pending item A. -/
def wA : Todo := ⟨"task A", Status.pending, Priority.high, "1"⟩

/-- Concrete pending item B. -/
def wB : Todo := ⟨"task B", Status.pending, Priority.low, "2"⟩

/-- Concrete list [completed, pending, pending]. -/
def todos3 : List Todo := [wDone, wA, wB]

/-- Witness for C3: on [completed, pending, pending] auto-progression starts
    exactly the first pending item wA, leaving the other items untouched. -/
theorem autoProgressToNextTodo_spec_witness :
    autoProgressToNextTodo todos3 =
      (some (todoDirective wA),
        [wDone, { wA with status := Status.in_progress }, wB]) :=
  (autoProgressToNextTodo_spec todos3 (by decide)).2.2 wA [wDone] [wB]
    (by rfl) (by rfl) (by decide) (by rfl)

/-- One cycle of Agent.executeTodoSequence: run auto-progression and, when it
    produced a directive, hand the directive to the chat loop.  The effect of
    that chat call on the orchestrator-owned task list (the endpoint may issue
    todo_write calls) is abstracted as the chatStep function. -/
def execSeqCycle (chatStep : List Todo → List Todo) (todos : List Todo) : List Todo :=
  match autoProgressToNextTodo todos with
  | (some _, started) => chatStep started
  | (none, unchanged) => unchanged

/-- The while loop of Agent.executeTodoSequence (src/agent.ts lines 383-402),
    with an explicit fuel bound on the number of iterations: none means the
    loop has not exited within fuel cycles.  The boolean of the result records
    whether the loop broke out through the stuck-task watchdog. -/
def execSeqLoop (chatStep : List Todo → List Todo) (fuel : Nat) (todos : List Todo) :
    Option (List Todo × Bool) :=
  match getNextPendingTodo todos with
  | none => some (todos, false)
  | some currentTodo =>
    match fuel with
    | 0 => none
    | fuel' + 1 =>
      let todos2 := execSeqCycle chatStep todos
      match getCurrentInProgressTodo todos2 with
      | some stillInProgress =>
        if stillInProgress.id = currentTodo.id then some (todos2, true)
        else execSeqLoop chatStep fuel' todos2
      | none => execSeqLoop chatStep fuel' todos2

/-- The final report string of Agent.executeTodoSequence. -/
def mkSequenceReport (completed total : Nat) : String :=
  "Todo sequence completed! " ++ toString completed ++ "/" ++ toString total ++
    " todos finished."

/-- Agent.executeTodoSequence (src/agent.ts lines 374-408): refuse when no
    item is pending, otherwise run the loop and report completed/total counts
    over the final task list. -/
def executeTodoSequence (chatStep : List Todo → List Todo) (fuel : Nat)
    (todos : List Todo) : Option String :=
  match getNextPendingTodo todos with
  | none => some ("No pending todos to execute.")
  | some _ =>
    (execSeqLoop chatStep fuel todos).map (fun out =>
      mkSequenceReport (countStatus Status.completed out.1) out.1.length)

/-- Model of a chat cycle that never stalls: the endpoint completes every
    item currently in progress and leaves all other items untouched. -/
def completingChat (todos : List Todo) : List Todo :=
  todos.map (fun todo =>
    if todo.status = Status.in_progress then { todo with status := Status.completed }
    else todo)

/-- A task list stuck before the sequence even starts: an item is already in
    progress while a different pending item remains. -/
def stuckA : Todo := ⟨"stuck task", Status.in_progress, Priority.high, "1"⟩

/-- The pending companion of stuckA. -/
def stuckB : Todo := ⟨"waiting task", Status.pending, Priority.low, "2"⟩

/-- The two-item stuck list. -/
def stuck2 : List Todo := [stuckA, stuckB]

/-- Counterexample to C2 as stated: with one pending item (so N = 1) and no
    stalling chat cycle (the chat is never even invoked), the sequence loop
    still has not finished after 100 cycles, because an item that was already
    in progress blocks auto-progression forever while the watchdog only
    compares against the first pending item.  The claimed "at most N cycles"
    and "always terminates" both fail. -/
theorem executeTodoSequence_stuck_counterexample :
    countStatus Status.pending stuck2 = 1 ∧
    executeTodoSequence (fun todos => todos) 100 stuck2 = none := by
  constructor
  · decide
  · rfl

/-- Under a pre-existing in-progress item with an id different from the first
    pending item, every iteration of the sequence loop leaves the state
    unchanged and the loop never exits, whatever the chat does and however
    much fuel is supplied. -/
theorem execSeqLoop_stuck_forever (chatStep : List Todo → List Todo)
    (todos : List Todo) (inProg cur : Todo)
    (hip : getCurrentInProgressTodo todos = some inProg)
    (hpend : getNextPendingTodo todos = some cur)
    (hne : inProg.id ≠ cur.id) :
    ∀ fuel, execSeqLoop chatStep fuel todos = none := by
  have hcycle : execSeqCycle chatStep todos = todos := by
    unfold execSeqCycle autoProgressToNextTodo
    rw [hip]
  intro fuel
  induction fuel with
  | zero => rw [execSeqLoop, hpend]
  | succ fuel' ih =>
    rw [execSeqLoop, hpend]
    dsimp only
    rw [hcycle, hip]
    dsimp only
    rw [if_neg hne]
    exact ih

/-- completingChat leaves no item in progress. -/
theorem completingChat_no_inProgress (todos : List Todo) :
    getCurrentInProgressTodo (completingChat todos) = none := by
  unfold getCurrentInProgressTodo completingChat
  rw [List.find?_eq_none]
  intro x hx
  obtain ⟨t, _, rfl⟩ := List.mem_map.mp hx
  by_cases h : t.status = Status.in_progress
  · simp [h]
  · simp [h]

/-- The status count distributes over list append. -/
theorem countStatus_append (s : Status) (l₁ l₂ : List Todo) :
    countStatus s (l₁ ++ l₂) = countStatus s l₁ + countStatus s l₂ := by
  unfold countStatus
  rw [List.filter_append, List.length_append]

/-- completingChat does not change the number of pending items. -/
theorem countStatus_pending_completingChat (todos : List Todo) :
    countStatus Status.pending (completingChat todos) =
      countStatus Status.pending todos := by
  unfold countStatus completingChat
  rw [← List.countP_eq_length_filter, ← List.countP_eq_length_filter, List.countP_map]
  apply List.countP_congr
  intro t _
  by_cases h : t.status = Status.in_progress
  · simp [Function.comp, h]
  · simp [Function.comp, h]

/-- Starting items by id never increases the number of pending items. -/
theorem countStatus_pending_start_le (targetId : String) (todos : List Todo) :
    countStatus Status.pending (startTodoById targetId todos) ≤
      countStatus Status.pending todos := by
  unfold countStatus startTodoById
  rw [← List.countP_eq_length_filter, ← List.countP_eq_length_filter, List.countP_map]
  apply List.countP_mono_left
  intro t _
  by_cases hid : t.id = targetId
  · simp [Function.comp, hid]
  · simp [Function.comp, hid]

/-- Starting the id of a pending member strictly decreases the number of
    pending items. -/
theorem countStatus_pending_start_lt (todos : List Todo) (cur : Todo)
    (hmem : cur ∈ todos) (hp : cur.status = Status.pending) :
    countStatus Status.pending (startTodoById cur.id todos) <
      countStatus Status.pending todos := by
  obtain ⟨l₁, l₂, rfl⟩ := List.append_of_mem hmem
  have hmap : startTodoById cur.id (l₁ ++ cur :: l₂) =
      startTodoById cur.id l₁ ++
        ({ cur with status := Status.in_progress } :: startTodoById cur.id l₂) := by
    unfold startTodoById
    rw [List.map_append, List.map_cons, if_pos rfl]
  rw [hmap, countStatus_append, countStatus_append]
  have hhead1 : countStatus Status.pending
      ({ cur with status := Status.in_progress } :: startTodoById cur.id l₂) =
      countStatus Status.pending (startTodoById cur.id l₂) := by
    unfold countStatus
    rw [List.filter_cons]
    simp
  have hhead2 : countStatus Status.pending (cur :: l₂) =
      countStatus Status.pending l₂ + 1 := by
    unfold countStatus
    rw [List.filter_cons]
    simp [hp]
  rw [hhead1, hhead2]
  have a1 := countStatus_pending_start_le cur.id l₁
  have a2 := countStatus_pending_start_le cur.id l₂
  omega

/-- A task list has no pending item exactly when its pending count is zero. -/
theorem countStatus_pending_eq_zero_iff (todos : List Todo) :
    countStatus Status.pending todos = 0 ↔ getNextPendingTodo todos = none := by
  unfold countStatus getNextPendingTodo
  rw [List.length_eq_zero, List.filter_eq_nil_iff, List.find?_eq_none]

/-- In a list with neither pending nor in-progress items every item is
    completed, so the completed count is the length. -/
theorem countStatus_completed_of_none_left (todos : List Todo)
    (hip : getCurrentInProgressTodo todos = none)
    (hpz : countStatus Status.pending todos = 0) :
    countStatus Status.completed todos = todos.length := by
  unfold getCurrentInProgressTodo at hip
  rw [List.find?_eq_none] at hip
  rw [countStatus_pending_eq_zero_iff] at hpz
  unfold getNextPendingTodo at hpz
  rw [List.find?_eq_none] at hpz
  have hall : ∀ t ∈ todos, (fun todo => decide (todo.status = Status.completed)) t = true := by
    intro t ht
    have h1 := hip t ht
    have h2 := hpz t ht
    simp only [decide_eq_true_eq] at h1 h2 ⊢
    cases hst : t.status
    · exact absurd hst h2
    · exact absurd hst h1
    · rfl
  unfold countStatus
  rw [List.filter_eq_self.mpr hall]

/-- Main induction for the terminating part of C2: with the completing chat
    model and no in-progress item, the sequence loop exits normally within
    countStatus pending cycles, ending with no pending and no in-progress
    item and an unchanged list length. -/
theorem execSeqLoop_completingChat_terminates : ∀ (fuel : Nat) (todos : List Todo),
    getCurrentInProgressTodo todos = none →
    countStatus Status.pending todos ≤ fuel →
    ∃ final, execSeqLoop completingChat fuel todos = some (final, false) ∧
      countStatus Status.pending final = 0 ∧
      getCurrentInProgressTodo final = none ∧
      final.length = todos.length := by
  intro fuel
  induction fuel with
  | zero =>
    intro todos hip hle
    have hz : countStatus Status.pending todos = 0 := Nat.le_zero.mp hle
    have hnp := (countStatus_pending_eq_zero_iff todos).mp hz
    refine ⟨todos, ?_, hz, hip, rfl⟩
    rw [execSeqLoop, hnp]
  | succ fuel' ih =>
    intro todos hip hle
    cases hfind : getNextPendingTodo todos with
    | none =>
      have hz := (countStatus_pending_eq_zero_iff todos).mpr hfind
      refine ⟨todos, ?_, hz, hip, rfl⟩
      rw [execSeqLoop, hfind]
    | some cur =>
      have hcur_mem := List.mem_of_find?_eq_some hfind
      have hcur_p : cur.status = Status.pending := by
        have := List.find?_some hfind
        simpa using this
      have hcycle : execSeqCycle completingChat todos =
          completingChat (startTodoById cur.id todos) := by
        unfold execSeqCycle autoProgressToNextTodo
        rw [hip, hfind]
      have hip2 : getCurrentInProgressTodo (execSeqCycle completingChat todos) = none := by
        rw [hcycle]; exact completingChat_no_inProgress _
      have hcount2 : countStatus Status.pending (execSeqCycle completingChat todos) <
          countStatus Status.pending todos := by
        rw [hcycle, countStatus_pending_completingChat]
        exact countStatus_pending_start_lt todos cur hcur_mem hcur_p
      have hle2 : countStatus Status.pending (execSeqCycle completingChat todos) ≤ fuel' :=
        Nat.lt_succ_iff.mp (Nat.lt_of_lt_of_le hcount2 hle)
      obtain ⟨final, hloop, hfz, hfip, hflen⟩ :=
        ih (execSeqCycle completingChat todos) hip2 hle2
      refine ⟨final, ?_, hfz, hfip, ?_⟩
      · rw [execSeqLoop, hfind]
        dsimp only
        rw [hip2]
        exact hloop
      · rw [hflen, hcycle]
        unfold completingChat startTodoById
        rw [List.length_map, List.length_map]

/-- Claim C2 (amended): sequence execution is guarded but not universally
    terminating.  (a) When a cycle begins with no in-progress item, the first
    pending item is started, and if after that cycle the first in-progress
    item carries the started item's id, the loop halts at once through the
    stuck-task watchdog.  (b) Started with no in-progress item and with chat
    cycles that complete the item they are given and leave the rest alone, a
    list with N pending items finishes within N cycles and reports
    total/total todos finished.  (c) However, if an item is already in
    progress while a pending item with a different id remains, the loop
    never exits: the watchdog compares only against the first pending item,
    so the claimed unconditional termination fails. -/
theorem executeTodoSequence_behavior :
    (∀ (chatStep : List Todo → List Todo) (fuel : Nat) (todos : List Todo)
        (cur stillT : Todo),
      getCurrentInProgressTodo todos = none →
      getNextPendingTodo todos = some cur →
      getCurrentInProgressTodo (execSeqCycle chatStep todos) = some stillT →
      stillT.id = cur.id →
      execSeqLoop chatStep (fuel + 1) todos = some (execSeqCycle chatStep todos, true))
    ∧ (∀ todos : List Todo,
      getCurrentInProgressTodo todos = none →
      0 < countStatus Status.pending todos →
      executeTodoSequence completingChat (countStatus Status.pending todos) todos =
        some (mkSequenceReport todos.length todos.length))
    ∧ (∀ (chatStep : List Todo → List Todo) (fuel : Nat) (todos : List Todo)
        (inProg cur : Todo),
      getCurrentInProgressTodo todos = some inProg →
      getNextPendingTodo todos = some cur →
      inProg.id ≠ cur.id →
      execSeqLoop chatStep fuel todos = none) := by
  refine ⟨?_, ?_, ?_⟩
  · intro chatStep fuel todos cur stillT hip hfind hstill hid
    rw [execSeqLoop, hfind]
    dsimp only
    rw [hstill]
    dsimp only
    rw [if_pos hid]
  · intro todos hip hpos
    obtain ⟨final, hloop, hfz, hfip, hflen⟩ :=
      execSeqLoop_completingChat_terminates (countStatus Status.pending todos) todos hip
        (Nat.le_refl _)
    have hfind : ∃ cur, getNextPendingTodo todos = some cur := by
      cases hfind : getNextPendingTodo todos with
      | none =>
        have := (countStatus_pending_eq_zero_iff todos).mpr hfind
        omega
      | some cur => exact ⟨cur, rfl⟩
    obtain ⟨cur, hfind⟩ := hfind
    unfold executeTodoSequence
    rw [hfind]
    dsimp only
    rw [hloop]
    have hcc := countStatus_completed_of_none_left final hfip hfz
    rw [Option.map_some']
    rw [hcc, hflen]
  · intro chatStep fuel todos inProg cur hip hfind hne
    exact execSeqLoop_stuck_forever chatStep todos inProg cur hip hfind hne fuel

/-- Witness for C2: all three prongs at concrete inputs.  With the identity
    chat (which never completes anything) the started first pending item of
    todos3 stalls and the loop halts in one cycle with the stuck flag; with
    the completing chat, todos3 (two pending items, one already completed)
    finishes in two cycles reporting 3/3; and the stuck list never finishes. -/
theorem executeTodoSequence_behavior_witness :
    execSeqLoop (fun todos => todos) 1 todos3 =
      some (execSeqCycle (fun todos => todos) todos3, true)
    ∧ executeTodoSequence completingChat 2 todos3 = some (mkSequenceReport 3 3)
    ∧ execSeqLoop (fun todos => todos) 5 stuck2 = none := by
  refine ⟨?_, ?_, ?_⟩
  · exact executeTodoSequence_behavior.1 (fun todos => todos) 0 todos3 wA
      { wA with status := Status.in_progress } (by rfl) (by rfl) (by rfl) (by rfl)
  · exact executeTodoSequence_behavior.2.1 todos3 (by rfl) (by decide)
  · exact executeTodoSequence_behavior.2.2 (fun todos => todos) 5 stuck2 stuckA stuckB
      (by rfl) (by rfl) (by decide)

/-- A content block of an endpoint response or of a synthesized user turn:
    text segments, action requests (tool_use with correlation id, name and
    input), action results (tool_result with the correlated id, result text
    and error flag), and any other block type the endpoint may emit. -/
inductive Block where
  | text (s : String)
  | toolUse (id : String) (name : String) (input : ToolInput)
  | toolResult (toolUseId : Option String) (content : String) (isError : Bool)
  | other (tag : String)
  deriving DecidableEq, Repr

/-- Speaker role of a conversation turn. -/
inductive Role where
  | user
  | assistant
  deriving DecidableEq, Repr

/-- Turn content: a plain string or a list of content blocks
    (the TypeScript string | any[]). -/
inductive MContent where
  | str (s : String)
  | blocks (blocks : List Block)
  deriving DecidableEq, Repr

/-- One conversation turn (the Message interface of src/agent.ts). -/
structure Message where
  role : Role
  content : MContent
  deriving DecidableEq, Repr

/-- Agent.parseToolCalls (src/agent.ts lines 140-153): collect name and input
    of every tool_use block, in order, dropping the correlation id. -/
def parseToolCalls (content : List Block) : List ToolCall :=
  content.filterMap (fun block =>
    match block with
    | Block.toolUse _ name input => some (⟨name, input⟩ : ToolCall)
    | _ => none)

/-- The toolUseBlock lookup of Agent.chat: the id of the FIRST tool_use block
    of the response whose name equals the dispatched call's name (the
    correlation id of the call itself was discarded by parseToolCalls). -/
def findToolUseId (content : List Block) (name : String) : Option String :=
  match content.find? (fun block =>
    match block with
    | Block.toolUse _ n _ => decide (n = name)
    | _ => false) with
  | some (Block.toolUse i _ _) => some i
  | _ => none

/-- Rendering of a status for the JSON echo of the internal todo state. -/
def statusText : Status → String
  | Status.pending => "pending"
  | Status.in_progress => "in_progress"
  | Status.completed => "completed"

/-- Rendering of a priority for the JSON echo of the internal todo state. -/
def priorityText : Priority → String
  | Priority.high => "high"
  | Priority.medium => "medium"
  | Priority.low => "low"

/-- JSON.stringify of one task item (field order of TodoWriteInput). -/
def todoJson (t : Todo) : String :=
  "\x7b\"content\":\"" ++ t.content ++ "\",\"status\":\"" ++ statusText t.status ++
    "\",\"priority\":\"" ++ priorityText t.priority ++ "\",\"id\":\"" ++ t.id ++ "\"\x7d"

/-- JSON.stringify of the task list. -/
def todosJson (todos : List Todo) : String :=
  "[" ++ String.intercalate (",") (todos.map todoJson) ++ "]"

/-- Agent.hasSignificantTodoChanges (src/agent.ts lines 269-283): some item of
    the new list changed status relative to the old list (keyed by id, last
    entry winning as in a JavaScript Map) with either side of the change
    being completed or in_progress. -/
def hasSignificantTodoChanges (oldTodos newTodos : List Todo) : Bool :=
  newTodos.any (fun newTodo =>
    let oldStatus := (oldTodos.reverse.find? (fun t => decide (t.id = newTodo.id))).map Todo.status
    decide (oldStatus ≠ some newTodo.status) &&
      (decide (newTodo.status = Status.completed) ||
        decide (newTodo.status = Status.in_progress) ||
        decide (oldStatus = some (Status.completed)) ||
        decide (oldStatus = some (Status.in_progress))))

/-- Abstraction of the executeTodoSequence call made from the dispatch loop
    (its chat recursion depends on the external endpoint): given the current
    history and task list it yields the report text, the updated task list,
    and the turns it appended to conversation history.  The real operation
    only ever appends turns, which the third component records. -/
def SeqOracle : Type :=
  List Message → List Todo → String × List Todo × List Message

/-- The mutable state threaded through the dispatch for-loop of Agent.chat:
    the orchestrator-owned task list, the conversation history, and the
    toolResults accumulator. -/
structure DState where
  todos : List Todo
  history : List Message
  results : List Block
  deriving Repr

/-- One iteration of the dispatch for-loop of Agent.chat (src/agent.ts lines
    181-254): special-cased todo_write (wholesale task-list replacement
    before execution, enhanced result, optional auto-progression directive
    appended to history), special-cased execute_sequence (confirm gate,
    abstracted sequence run), and the general registry dispatch with the
    per-call catch that converts a thrown error into an error-flagged
    result block. -/
def dispatchOne (reg : ToolRegistry) (seqOracle : SeqOracle) (content : List Block)
    (st : DState) (toolCall : ToolCall) : DState :=
  if toolCall.name = "todo_write" then
    let oldTodos := st.todos
    let newTodos := toolCall.input.todos
    let hasStatusChanges := hasSignificantTodoChanges oldTodos newTodos
    match reg.execute toolCall with
    | Except.error emsg =>
      { st with
        todos := newTodos
        results := st.results ++
          [Block.toolResult (findToolUseId content toolCall.name) ("Error: " ++ emsg) true] }
    | Except.ok result =>
      let enhancedResult :=
        result ++ "\n\nInternal todo state updated: " ++ todosJson newTodos
      let st1 : DState :=
        { st with
          todos := newTodos
          results := st.results ++
            [Block.toolResult (findToolUseId content toolCall.name) enhancedResult false] }
      if hasStatusChanges then
        match autoProgressToNextTodo st1.todos with
        | (some nextTodoPrompt, todos2) =>
          { st1 with
            todos := todos2
            history := st1.history ++ [⟨Role.user, MContent.str nextTodoPrompt⟩] }
        | (none, todos2) => { st1 with todos := todos2 }
      else st1
  else if toolCall.name = "execute_sequence" then
    if toolCall.input.confirm = some false then
      { st with results := st.results ++
          [Block.toolResult (findToolUseId content toolCall.name)
            ("Todo sequence execution cancelled.") false] }
    else
      let out := seqOracle st.history st.todos
      { st with
        todos := out.2.1
        history := st.history ++ out.2.2
        results := st.results ++
          [Block.toolResult (findToolUseId content toolCall.name) out.1 false] }
  else
    match reg.execute toolCall with
    | Except.ok result =>
      { st with results := st.results ++
          [Block.toolResult (findToolUseId content toolCall.name) result false] }
    | Except.error emsg =>
      { st with results := st.results ++
          [Block.toolResult (findToolUseId content toolCall.name) ("Error: " ++ emsg) true] }

/-- The orchestrator-owned state visible across loop iterations. -/
structure AgentState where
  history : List Message
  todos : List Todo
  deriving DecidableEq, Repr

/-- Outcome of one iteration of the while loop of Agent.chat: either Done with
    the returned answer, or re-entry into the next AwaitingModel round. -/
inductive RoundOutcome where
  | done (answer : String) (st : AgentState)
  | next (st : AgentState)
  deriving DecidableEq, Repr

/-- The block.type === 'text' test. -/
def isTextBlock : Block → Bool
  | Block.text _ => true
  | _ => false

/-- One iteration of the while loop of Agent.chat (src/agent.ts lines
    158-258), given the content of the endpoint response: append the
    assistant turn unconditionally; with no tool calls return the first
    text block's content (or the fixed fallback); otherwise run the
    dispatch loop over all tool calls in order and append the collected
    result blocks as one new user turn. -/
def chatRound (reg : ToolRegistry) (seqOracle : SeqOracle) (st : AgentState)
    (content : List Block) : RoundOutcome :=
  let st0 : AgentState :=
    { st with history := st.history ++ [⟨Role.assistant, MContent.blocks content⟩] }
  let toolCalls := parseToolCalls content
  if toolCalls.length = 0 then
    RoundOutcome.done
      (match content.find? isTextBlock with
        | some (Block.text s) => s
        | _ => "No text response")
      st0
  else
    let dFinal := toolCalls.foldl (dispatchOne reg seqOracle content)
      { todos := st0.todos, history := st0.history, results := [] }
    RoundOutcome.next
      { history := dFinal.history ++ [⟨Role.user, MContent.blocks dFinal.results⟩]
        todos := dFinal.todos }

/-- Agent.clearHistory (src/agent.ts lines 265-267). -/
def clearHistory (st : AgentState) : AgentState :=
  { st with history := [] }

/-- The history component of a round outcome. -/
def roundHistory : RoundOutcome → List Message
  | RoundOutcome.done _ st => st.history
  | RoundOutcome.next st => st.history

/-- Every branch of the dispatch loop body only ever appends to conversation
    history. -/
theorem dispatchOne_history_extends (reg : ToolRegistry) (seqOracle : SeqOracle)
    (content : List Block) (st : DState) (toolCall : ToolCall) :
    ∃ tail, (dispatchOne reg seqOracle content st toolCall).history = st.history ++ tail := by
  unfold dispatchOne
  dsimp only
  repeat' split
  all_goals first
    | exact ⟨_, rfl⟩
    | exact ⟨[], (List.append_nil _).symm⟩

/-- Folding the dispatch loop over any list of tool calls only appends to
    conversation history. -/
theorem foldl_dispatch_history_extends (reg : ToolRegistry) (seqOracle : SeqOracle)
    (content : List Block) :
    ∀ (calls : List ToolCall) (st : DState),
    ∃ tail, (calls.foldl (dispatchOne reg seqOracle content) st).history =
      st.history ++ tail := by
  intro calls
  induction calls with
  | nil => intro st; exact ⟨[], by simp⟩
  | cons c cs ih =>
    intro st
    obtain ⟨t1, h1⟩ := dispatchOne_history_extends reg seqOracle content st c
    obtain ⟨t2, h2⟩ := ih (dispatchOne reg seqOracle content st c)
    exact ⟨t1 ++ t2, by rw [List.foldl_cons, h2, h1, List.append_assoc]⟩

/-- Claim C6: conversation history is strictly append-only: after any
    iteration of the orchestration loop the previous history is an unchanged
    prefix of the new one (so its length never decreases and prior turns are
    untouched), and the only operation that removes turns is the explicit
    clearHistory, which resets the history to empty. -/
theorem conversationHistory_append_only (reg : ToolRegistry) (seqOracle : SeqOracle)
    (st : AgentState) (content : List Block) :
    (∃ tail, roundHistory (chatRound reg seqOracle st content) = st.history ++ tail)
    ∧ ∀ s : AgentState, (clearHistory s).history = [] := by
  constructor
  · unfold chatRound
    dsimp only
    by_cases h : (parseToolCalls content).length = 0
    · rw [if_pos h]
      exact ⟨[⟨Role.assistant, MContent.blocks content⟩], rfl⟩
    · rw [if_neg h]
      obtain ⟨t, ht⟩ := foldl_dispatch_history_extends reg seqOracle content
        (parseToolCalls content)
        { todos := st.todos
          history := st.history ++ [⟨Role.assistant, MContent.blocks content⟩]
          results := [] }
      unfold roundHistory
      simp only at ht
      simp only [ht, List.append_assoc]
      exact ⟨_, rfl⟩
  · intro s
    rfl

/-- Claim C7: when the endpoint response contains no tool_use block the loop
    reaches Done in this round, appending only the assistant turn, and
    returns the first text block's content, or the fixed fallback string
    when the response holds no text block at all. -/
theorem chat_done_on_no_toolUse (reg : ToolRegistry) (seqOracle : SeqOracle)
    (st : AgentState) (content : List Block)
    (hno : parseToolCalls content = []) :
    (content.find? isTextBlock = none →
      chatRound reg seqOracle st content =
        RoundOutcome.done ("No text response")
          { st with history := st.history ++ [⟨Role.assistant, MContent.blocks content⟩] })
    ∧ (∀ s before after,
      content = before ++ Block.text s :: after →
      (∀ b ∈ before, isTextBlock b = false) →
      chatRound reg seqOracle st content =
        RoundOutcome.done s
          { st with history := st.history ++ [⟨Role.assistant, MContent.blocks content⟩] }) := by
  have hlen : (parseToolCalls content).length = 0 := by rw [hno]; rfl
  constructor
  · intro hfind
    unfold chatRound
    dsimp only
    rw [if_pos hlen, hfind]
  · intro s before after hsplit hbefore
    have hfind : content.find? isTextBlock = some (Block.text s) := by
      rw [hsplit]
      exact find?_append_cons before after (Block.text s) hbefore rfl
    unfold chatRound
    dsimp only
    rw [if_pos hlen, hfind]

/-- Claim C9: processing a todo_write action replaces the orchestrator's
    task list wholesale with the supplied array before the tool executes,
    and the replacement survives a failing execution: when the registry
    lacks todo_write (so ToolRegistry.execute throws), the dispatch step
    still leaves the task list equal to the supplied list, emits exactly one
    error-flagged result block, and appends nothing to history. -/
theorem todoWrite_replacement_persists (reg : ToolRegistry) (seqOracle : SeqOracle)
    (content : List Block) (st : DState) (toolCall : ToolCall)
    (hname : toolCall.name = "todo_write")
    (habsent : reg.get ("todo_write") = none) :
    (dispatchOne reg seqOracle content st toolCall).todos = toolCall.input.todos
    ∧ (dispatchOne reg seqOracle content st toolCall).results =
        st.results ++ [Block.toolResult (findToolUseId content ("todo_write"))
          ("Error: Tool 'todo_write' not found") true]
    ∧ (dispatchOne reg seqOracle content st toolCall).history = st.history := by
  have hexec : reg.execute toolCall = Except.error ("Tool 'todo_write' not found") := by
    unfold ToolRegistry.execute
    rw [hname, habsent]
    rfl
  unfold dispatchOne
  rw [hname]
  rw [if_pos rfl]
  dsimp only
  rw [hexec]
  exact ⟨rfl, rfl, rfl⟩

/-- A concrete todo_write call used for the C9 witness. -/
def c9Call : ToolCall :=
  ⟨"todo_write", ⟨[⟨"task A", Status.pending, Priority.high, "1"⟩], none, ""⟩⟩

/-- A sequence oracle that does nothing, used in concrete evaluations. -/
def noSeq : SeqOracle := fun _ _ => ("", [], [])

/-- Witness for C9: with an empty registry the todo_write dispatch throws,
    the result block is error-flagged, and the task list still equals the
    supplied list. -/
theorem todoWrite_replacement_persists_witness :
    (dispatchOne emptyRegistry noSeq [] ⟨[], [], []⟩ c9Call).todos = c9Call.input.todos
    ∧ (dispatchOne emptyRegistry noSeq [] ⟨[], [], []⟩ c9Call).results =
        [] ++ [Block.toolResult (findToolUseId [] ("todo_write"))
          ("Error: Tool 'todo_write' not found") true]
    ∧ (dispatchOne emptyRegistry noSeq [] ⟨[], [], []⟩ c9Call).history = [] :=
  todoWrite_replacement_persists emptyRegistry noSeq [] ⟨[], [], []⟩ c9Call (by rfl) (by rfl)

/-- Response content used for the C7 witness: a non-text block followed by a
    text block, no tool_use blocks. -/
def c7Content : List Block := [Block.other ("thinking"), Block.text ("hello there")]

/-- Witness for C7: with no tool_use block the round is Done with the first
    text block's content and only the assistant turn appended. -/
theorem chat_done_on_no_toolUse_witness :
    chatRound emptyRegistry noSeq ⟨[], []⟩ c7Content =
      RoundOutcome.done ("hello there")
        { history := [⟨Role.assistant, MContent.blocks c7Content⟩]
          todos := [] } :=
  (chat_done_on_no_toolUse emptyRegistry noSeq ⟨[], []⟩ c7Content (by rfl)).2
    ("hello there") [Block.other ("thinking")] [] (by rfl) (by decide)

/-- Response content with two action requests carrying the SAME tool name but
    distinct correlation ids. -/
def c1Content : List Block :=
  [Block.toolUse ("toolu_01") ("read_file") ⟨[], none, "a.txt"⟩,
   Block.toolUse ("toolu_02") ("read_file") ⟨[], none, "b.txt"⟩]

/-- Claim C1, evaluation at the failing input: the orchestrator recovers the
    correlation id by looking up the FIRST tool_use block with the dispatched
    name, so when one response carries two same-name requests the result
    block of the second request is tagged with the id of the first
    (toolu_01), not with its own id (toolu_02).  Dispatch order, one result
    block per request and the single appended user turn are all visible in
    the evaluated outcome; only the claimed per-request correlation fails. -/
theorem chat_duplicate_name_miscorrelation :
    chatRound emptyRegistry noSeq ⟨[], []⟩ c1Content =
      RoundOutcome.next
        { history :=
            [⟨Role.assistant, MContent.blocks c1Content⟩,
             ⟨Role.user, MContent.blocks
               [Block.toolResult (some ("toolu_01")) ("Error: Tool 'read_file' not found") true,
                Block.toolResult (some ("toolu_01")) ("Error: Tool 'read_file' not found") true]⟩]
          todos := [] }
    ∧ (some ("toolu_01") : Option String) ≠ some ("toolu_02") := by
  constructor
  · rfl
  · decide

/-- The JavaScript String.prototype.startsWith test used by the read_file
    security check, modelled character-wise. -/
def strStartsWith (s : String) (p : String) : Bool :=
  List.isPrefixOf p.toList s.toList

/-- The filesystem environment consumed by the read_file tool: the working
    directory (process.cwd), path resolution (path.resolve) and the raw read
    (fs.readFileSync), the last failing with the thrown error's message. -/
structure FsEnv where
  cwd : String
  resolvePath : String → String
  readSync : String → Except String String

/-- readFileTool.execute (src/tools.ts lines 77-92): resolve the path,
    reject when the resolved path does not start with the working directory,
    read the file, and wrap any failure (including the access-denied throw)
    in a Failed to read file error. -/
def readFileToolExecute (env : FsEnv) (filePath : String) : Except String String :=
  let safePath := env.resolvePath filePath
  let inner : Except String String :=
    if strStartsWith safePath env.cwd = false then
      Except.error ("Access denied: file must be within current directory")
    else
      match env.readSync safePath with
      | Except.ok content =>
        Except.ok ("File contents of " ++ filePath ++ ":\n\n" ++ content)
      | Except.error msg => Except.error (msg)
  match inner with
  | Except.ok r => Except.ok r
  | Except.error msg => Except.error ("Failed to read file: " ++ msg)

/-- Spec-side definition of escaping the working directory: the resolved
    path is neither the working directory itself nor located under it
    (under = the directory name followed by a path separator). -/
def escapesWorkingDir (cwd p : String) : Bool :=
  !(decide (p = cwd) || strStartsWith p (cwd ++ "/"))

/-- Filesystem fixture for C8: working directory /work and a readable file in
    the SIBLING directory /workevil, whose name shares /work as a string
    prefix. -/
def c8Env : FsEnv :=
  { cwd := "/work"
    resolvePath := fun p => p
    readSync := fun p =>
      if p = "/workevil/secret.txt" then Except.ok ("top secret")
      else Except.error ("ENOENT: no such file or directory") }

/-- Claim C8, evaluation at the failing input: /workevil/secret.txt escapes
    the working directory /work (it is not /work and not under /work/), yet
    the read_file tool returns the file contents, because the source checks
    only that the resolved path starts with the cwd string and
    "/workevil/..." does.  This contradicts both the claim and the tool's
    own access-denied error text. -/
theorem readFile_path_check_bypass :
    escapesWorkingDir ("/work") ("/workevil/secret.txt") = true
    ∧ readFileToolExecute c8Env ("/workevil/secret.txt") =
        Except.ok ("File contents of /workevil/secret.txt:\n\ntop secret")
    ∧ readFileToolExecute c8Env ("/elsewhere/a.txt") =
        Except.error ("Failed to read file: Access denied: file must be within current directory") := by
  refine ⟨?_, ?_, ?_⟩
  · decide
  · rfl
  · rfl

/-- The heap backing JavaScript array references: a store of arrays of
    conversation turns, addressed by index.  Agents hold a reference to
    their conversationHistory array; spreading copies into a fresh array. -/
structure Heap where
  arrays : List (List Message)

/-- Dereference an array reference. -/
def Heap.getArr (h : Heap) (r : Nat) : List Message :=
  (h.arrays.get? r).getD []

/-- Mutate the array behind a reference (covers push, pop, splice: any
    replacement of the array's contents in place). -/
def Heap.writeArr (h : Heap) (r : Nat) (v : List Message) : Heap :=
  ⟨h.arrays.set r v⟩

/-- Allocate a fresh array holding the given turns, returning the new heap
    and the fresh reference. -/
def Heap.alloc (h : Heap) (v : List Message) : Heap × Nat :=
  (⟨h.arrays ++ [v]⟩, h.arrays.length)

/-- Agent.getConversationHistory (src/agent.ts lines 261-263): return
    [...this.conversationHistory], a freshly allocated copy of the agent's
    internal array, not the internal reference itself. -/
def getConversationHistoryRef (h : Heap) (agentRef : Nat) : Heap × Nat :=
  h.alloc (h.getArr agentRef)

/-- Claim C10: the returned list is a fresh copy of the internal history:
    it holds the same turns, its reference differs from the agent's, and
    any mutation through the returned reference (appending, removing or
    arbitrary rewriting of elements) leaves the agent's internal history
    unchanged, so a later read of the agent's array yields the same turns
    as before the mutation. -/
theorem getConversationHistory_returns_copy (h : Heap) (agentRef : Nat)
    (hvalid : agentRef < h.arrays.length) :
    ((getConversationHistoryRef h agentRef).1.getArr (getConversationHistoryRef h agentRef).2
        = h.getArr agentRef)
    ∧ (getConversationHistoryRef h agentRef).2 ≠ agentRef
    ∧ ∀ v, (((getConversationHistoryRef h agentRef).1.writeArr
          (getConversationHistoryRef h agentRef).2 v).getArr agentRef
        = h.getArr agentRef) := by
  refine ⟨?_, ?_, ?_⟩
  · unfold getConversationHistoryRef Heap.alloc Heap.getArr
    dsimp only
    rw [List.get?_concat_length]
    rfl
  · unfold getConversationHistoryRef Heap.alloc
    dsimp only
    exact Nat.ne_of_gt hvalid
  · intro v
    unfold getConversationHistoryRef Heap.alloc Heap.getArr Heap.writeArr
    dsimp only
    rw [List.get?_set_ne _ _ (Nat.ne_of_gt hvalid), List.get?_append hvalid]

/-- Concrete heap for the C10 witness: one agent whose history holds a
    single user turn. -/
def h10 : Heap := ⟨[[⟨Role.user, MContent.str ("hi")⟩]]⟩

/-- Witness for C10: clearing the returned copy leaves the agent's single
    stored turn in place. -/
theorem getConversationHistory_returns_copy_witness :
    (((getConversationHistoryRef h10 0).1.writeArr
        (getConversationHistoryRef h10 0).2 []).getArr 0) = h10.getArr 0 :=
  (getConversationHistory_returns_copy h10 0 (by decide)).2.2 []
